import Mathlib

/-!
# Verification of the VibePlanner leave planner core (`leave_planner.py`)

Shallow embedding of the core of `LeavePlanner` from `leave_planner.py`:
the per-city day-type calendar, the cluster finder, the bridge optimizer
(`_find_optimal_leave_periods`) and the per-employee plan assembler
(`generate_leave_plans`).

Modelling conventions:
* Dates are day-of-year ordinals `1 .. 365` of the fixed target year 2025
  (not a leap year).  January 1, 2025 is a Wednesday, so Python's
  `date.weekday()` (Monday = 0, ..., Sunday = 6) is `(d + 1) % 7`.
* A `HolidayRec` is a holiday row after `_get_holidays_for_city` has parsed
  its `%d-%b` date string and projected it onto 2025: the `date` field is
  the resulting ordinal.
* Python's float division `days_off / leaves_used` is embedded as exact
  rational division.  Here `days_off ≤ 35` and `leaves_used ≤ 4`, so the
  distinct rational values that can arise are at least `1/12` apart; IEEE
  doubles of these quotients are correctly rounded, hence their order and
  their comparisons with the exactly representable `1.5` coincide with the
  rational ones.  The rational embedding is therefore observation-faithful.
* `holiday_info` keeps the holiday descriptions; the `strftime` date
  formatting of the Python string is not modelled.
-/

namespace VibePlanner

/-- Number of days in the fixed target year 2025 (`self.year = 2025`). -/
def numDaysInYear : Nat := 365

/-- Day-of-year ordinal of the first day of each month of 2025, together
with `366`, the ordinal of January 1, 2026 (the scan in the source steps one
day past December 31 and checks `current_date.day == 1` there). -/
def monthStarts : List Nat := [1, 32, 60, 91, 121, 152, 182, 213, 244, 274, 305, 335, 366]

/-- `current_date.day == 1` for the ordinal `d`. -/
def isFirstOfMonth (d : Nat) : Bool := monthStarts.contains d

/-- Calendar month (1..12) containing ordinal day `d` of 2025. -/
def monthOfDay (d : Nat) : Nat := (monthStarts.filter (fun s => s ≤ d)).length

/-- Python `date.weekday()`: Monday = 0, ..., Sunday = 6. -/
def weekday (d : Nat) : Nat := (d + 1) % 7

/-- `_is_weekend`: Saturday (5) or Sunday (6). -/
def isWeekend (d : Nat) : Bool := 5 ≤ weekday d

/-- A holiday row for one city, after date parsing and projection onto 2025
(see `_get_holidays_for_city`). -/
structure HolidayRec where
  date : Nat
  desc : String
deriving DecidableEq

/-- The classification stored in `calendar_days[date]['type']` (with the
holiday description of `calendar_days[date]['description']`). -/
inductive DayType where
  | holiday (desc : String)
  | weekend
  | workday
deriving DecidableEq

/-- A day counts toward a cluster iff its type is `Holiday` or `Weekend`. -/
def DayType.isOff : DayType → Bool
  | .workday => false
  | _ => true

/-- The description the dict comprehension
`{h['date']: h['description'] for h in city_holidays}` associates to `d`
(a later row with the same date overwrites an earlier one), when `d` is a
holiday. -/
def holidayDescOn (holidays : List HolidayRec) (d : Nat) : Option String :=
  ((holidays.filter (fun h => h.date = d)).getLast?).map (fun h => h.desc)

/-- The calendar built in `_find_optimal_leave_periods` (lines 78–92):
Holiday if some holiday record falls on `d`, else Weekend on Saturday or
Sunday, else Workday. -/
def calendarDays (holidays : List HolidayRec) (d : Nat) : DayType :=
  match holidayDescOn holidays d with
  | some desc => .holiday desc
  | none => if isWeekend d then .weekend else .workday

/-- The dates iterated by the scans: January 1 (ordinal 1) through
December 31 (ordinal 365). -/
def yearDays : List Nat := List.range' 1 numDaysInYear

/-- The cluster scan of lines 94–115.  `cur` is `current_cluster`.  On an
off day the date is appended; on a workday a non-empty accumulator is
closed; after stepping to the next date, a non-empty accumulator is closed
when that next date is the first of a month (including the step past
December 31).  At the end a non-empty accumulator is closed. -/
def findClustersAux (cal : Nat → DayType) : List Nat → List Nat → List (List Nat)
  | [], cur => if cur.isEmpty then [] else [cur]
  | d :: rest, cur =>
    if (cal d).isOff then
      let cur1 := cur ++ [d]
      if isFirstOfMonth (d + 1) then
        cur1 :: findClustersAux cal rest []
      else
        findClustersAux cal rest cur1
    else
      if cur.isEmpty then
        findClustersAux cal rest []
      else
        cur :: findClustersAux cal rest []

/-- Cluster Finder: the `clusters` list of line 115, before the sort by
length at line 122. -/
def findClusters (cal : Nat → DayType) : List (List Nat) :=
  findClustersAux cal yearDays []

/-- `potential_before` (lines 133–139): scan backward from
`cluster_start - 1` while the remaining budget is positive, the date is at
least January 1 and it is a Workday; stop after 2 days.  The loop makes at
most two iterations, so it is unrolled. -/
def scanBefore (cal : Nat → DayType) (rem : Int) (clusterStart : Nat) : List Nat :=
  if 0 < rem ∧ 1 ≤ clusterStart - 1 ∧ cal (clusterStart - 1) = .workday then
    if 0 < rem ∧ 1 ≤ clusterStart - 2 ∧ cal (clusterStart - 2) = .workday then
      [clusterStart - 1, clusterStart - 2]
    else
      [clusterStart - 1]
  else
    []

/-- `potential_after` (lines 142–148): scan forward from `cluster_end + 1`
while the remaining budget is positive, the date is at most December 31 and
it is a Workday; stop after 2 days. -/
def scanAfter (cal : Nat → DayType) (rem : Int) (clusterEnd : Nat) : List Nat :=
  if 0 < rem ∧ clusterEnd + 1 ≤ numDaysInYear ∧ cal (clusterEnd + 1) = .workday then
    if 0 < rem ∧ clusterEnd + 2 ≤ numDaysInYear ∧ cal (clusterEnd + 2) = .workday then
      [clusterEnd + 1, clusterEnd + 2]
    else
      [clusterEnd + 1]
  else
    []

/-- Python `min` on a list known to be non-empty (the source only applies
it to non-empty clusters; the `0` default is never reached there). -/
def listMin : List Nat → Nat
  | [] => 0
  | h :: t => t.foldl Nat.min h

/-- Python `max` on a list known to be non-empty. -/
def listMax : List Nat → Nat
  | [] => 0
  | h :: t => t.foldl Nat.max h

/-- `leaves_to_use = min(leaves_remaining, len(potential_before) + len(potential_after))`. -/
def candidateCount (cal : Nat → DayType) (rem : Int) (cluster : List Nat) : Int :=
  min rem (((scanBefore cal rem (listMin cluster)).length : Int)
    + ((scanAfter cal rem (listMax cluster)).length : Int))

/-- `value = days_off / leaves_to_use if leaves_to_use > 0 else 0`, with
`days_off = len(cluster) + leaves_to_use`.  The quotient is written with
`mkRat` (the kernel-evaluable constructor of ℚ); the lemma
`clusterValue_eq_div` below identifies it with the actual rational
division of the source expression. -/
def clusterValue (cal : Nat → DayType) (rem : Int) (cluster : List Nat) : ℚ :=
  let cc := candidateCount cal rem cluster
  if 0 < cc then mkRat ((cluster.length : Int) + cc) cc.toNat else 0

/-- `clusterValue` is the rational division the source writes:
`days_off / leaves_to_use` when `leaves_to_use > 0`, else `0`. -/
theorem clusterValue_eq_div (cal : Nat → DayType) (r : Int) (c : List Nat) :
    clusterValue cal r c
      = if 0 < candidateCount cal r c
        then (((c.length : Int) + candidateCount cal r c : Int) : ℚ)
          / ((candidateCount cal r c : Int) : ℚ)
        else 0 := by
  show (if 0 < candidateCount cal r c
      then mkRat ((c.length : Int) + candidateCount cal r c) (candidateCount cal r c).toNat
      else 0)
    = if 0 < candidateCount cal r c
      then (((c.length : Int) + candidateCount cal r c : Int) : ℚ)
        / ((candidateCount cal r c : Int) : ℚ)
      else 0
  split_ifs with h
  · rw [Rat.mkRat_eq_div]
    obtain ⟨n, hn⟩ := Int.eq_ofNat_of_zero_le (le_of_lt h)
    rw [hn]
    simp only [Int.toNat_natCast]
    push_cast
    ring
  · rfl

/-- One element of `leave_suggestions` (lines 176–184). -/
structure Suggestion where
  start_date : Nat
  end_date : Nat
  leaves_used : Nat
  total_days_off : Nat
  value : ℚ
  leave_dates : List Nat
  holiday_info : List String
deriving DecidableEq

/-- The suggestion dict built at lines 168–184 from an accepted cluster and
its chosen `leave_dates`. -/
def buildSuggestion (cal : Nat → DayType) (cluster leaveDates : List Nat) (value : ℚ) :
    Suggestion :=
  let totalPeriod := (cluster ++ leaveDates).insertionSort (· ≤ ·)
  { start_date := listMin totalPeriod
    end_date := listMax totalPeriod
    leaves_used := leaveDates.length
    total_days_off := totalPeriod.length
    value := value
    leave_dates := leaveDates.insertionSort (· ≤ ·)
    holiday_info := cluster.filterMap (fun d => match cal d with
      | .holiday desc => some desc
      | _ => none) }

/-- `leave_dates` (lines 157–166): the first `leaves_to_use` dates of the
ascending sort of `potential_before + potential_after`. -/
def chosenLeaveDates (cal : Nat → DayType) (rem : Int) (cluster : List Nat) : List Nat :=
  ((scanBefore cal rem (listMin cluster)
      ++ scanAfter cal rem (listMax cluster)).insertionSort (· ≤ ·)).take
    (candidateCount cal rem cluster).toNat

/-- The budget-consuming loop over the length-sorted clusters
(lines 124–185).  `rem` is `leaves_remaining`; the loop breaks as soon as it
is non-positive. -/
def optimizeLoop (cal : Nat → DayType) : List (List Nat) → Int → List Suggestion
  | [], _ => []
  | cluster :: rest, rem =>
    if rem ≤ 0 then []
    else
      let potentialBefore := scanBefore cal rem (listMin cluster)
      let potentialAfter := scanAfter cal rem (listMax cluster)
      if potentialBefore = [] ∧ potentialAfter = [] then
        optimizeLoop cal rest rem
      else
        let value := clusterValue cal rem cluster
        if value < mkRat 3 2 then
          optimizeLoop cal rest rem
        else
          let leaveDates := chosenLeaveDates cal rem cluster
          if leaveDates = [] then
            optimizeLoop cal rest rem
          else
            buildSuggestion cal cluster leaveDates value
              :: optimizeLoop cal rest (rem - (leaveDates.length : Int))

/-- `_find_optimal_leave_periods(city, available_leaves)`, with the city's
parsed holidays as input.  Clusters are sorted by length descending
(stable, line 122), the budget loop runs, and the result is sorted by value
descending (stable, line 188). -/
def findOptimalLeavePeriods (holidays : List HolidayRec) (availableLeaves : Int) :
    List Suggestion :=
  let cal := calendarDays holidays
  let clusters := findClusters cal
  let sortedClusters := clusters.insertionSort (fun a b => b.length ≤ a.length)
  let suggestions := optimizeLoop cal sortedClusters availableLeaves
  suggestions.insertionSort (fun a b => b.value ≤ a.value)

/-- An employee row after column resolution.  `leavesField` is the result
of Python's `int(...)` attempt on the leave-balance cell: `some n` when it
parses (note `int` accepts negative numbers), `none` when it raises. -/
structure Employee where
  name : String
  id : String
  city : String
  leavesField : Option Int
deriving DecidableEq

/-- Lines 200–205: `int(employee[leaves_col])`, falling back to the default
10 (with a logged warning) when the cell does not parse. -/
def resolveLeaveBalance (field : Option Int) : Int :=
  match field with
  | some n => n
  | none => 10

/-- Python's substring test `needle in hay` on lists of characters. -/
def subIn (needle : List Char) : List Char → Bool
  | [] => needle.isEmpty
  | c :: t => needle.isPrefixOf (c :: t) || subIn needle t

/-- `s.lower()` as a character list. -/
def lowerChars (s : String) : List Char := s.data.map Char.toLower

/-- Lines 214–221: the first known city matching case-insensitively as a
substring in either direction. -/
def cityFuzzy (city : String) (cities : List String) : Option String :=
  cities.find? (fun hc =>
    subIn (lowerChars city) (lowerChars hc) || subIn (lowerChars hc) (lowerChars city))

/-- Lines 211–224: exact membership first, then the fuzzy match. -/
def resolveCity (city : String) (cities : List String) : Option String :=
  if city ∈ cities then some city else cityFuzzy city cities

/-- One element of the `results` list of `generate_leave_plans`.  The error
dict carries a `Status` and no `Available Leaves`; the success dict carries
`Available Leaves` and no `Status`. -/
structure EmpResult where
  employee_name : String
  employee_id : String
  city : String
  status : Option String
  available_leaves : Option Int
  suggestions : List Suggestion
deriving DecidableEq

/-- The body of the per-employee loop of `generate_leave_plans`
(lines 195–243).  `getHolidays` abstracts `_get_holidays_for_city`. -/
def planForEmployee (cities : List String) (getHolidays : String → List HolidayRec)
    (e : Employee) : EmpResult :=
  let availableLeaves := resolveLeaveBalance e.leavesField
  match resolveCity e.city cities with
  | none =>
    { employee_name := e.name
      employee_id := e.id
      city := e.city
      status := some ("Error: City " ++ e.city ++ " not found in holiday list")
      available_leaves := none
      suggestions := [] }
  | some c =>
    { employee_name := e.name
      employee_id := e.id
      city := c
      status := none
      available_leaves := some availableLeaves
      suggestions := findOptimalLeavePeriods (getHolidays c) availableLeaves }

/-- `generate_leave_plans`: every employee is processed, independently of
the others. -/
def generateLeavePlans (cities : List String) (getHolidays : String → List HolidayRec)
    (emps : List Employee) : List EmpResult :=
  emps.map (planForEmployee cities getHolidays)

/-! ## Properties of the Cluster Finder -/

theorem findClustersAux_nil (cal : Nat → DayType) (cur : List Nat) :
    findClustersAux cal [] cur = if cur.isEmpty then [] else [cur] := rfl

theorem findClustersAux_cons_off_close (cal : Nat → DayType) (d : Nat) (rest cur : List Nat)
    (hoff : (cal d).isOff = true) (hm : isFirstOfMonth (d + 1) = true) :
    findClustersAux cal (d :: rest) cur = (cur ++ [d]) :: findClustersAux cal rest [] := by
  simp [findClustersAux, hoff, hm]

theorem findClustersAux_cons_off_cont (cal : Nat → DayType) (d : Nat) (rest cur : List Nat)
    (hoff : (cal d).isOff = true) (hm : isFirstOfMonth (d + 1) = false) :
    findClustersAux cal (d :: rest) cur = findClustersAux cal rest (cur ++ [d]) := by
  simp [findClustersAux, hoff, hm]

theorem findClustersAux_cons_work_nil (cal : Nat → DayType) (d : Nat) (rest : List Nat)
    (hoff : (cal d).isOff = false) :
    findClustersAux cal (d :: rest) [] = findClustersAux cal rest [] := by
  simp [findClustersAux, hoff]

theorem findClustersAux_cons_work (cal : Nat → DayType) (d : Nat) (rest cur : List Nat)
    (hoff : (cal d).isOff = false) (hcur : ¬ cur.isEmpty) :
    findClustersAux cal (d :: rest) cur = cur :: findClustersAux cal rest [] := by
  simp [findClustersAux, hoff, hcur]

/-- The dates of all clusters, concatenated, are exactly the off days of
the scanned range, in scan order: every off day joins some cluster and no
workday does. -/
theorem findClustersAux_flatten (cal : Nat → DayType) :
    ∀ (days cur : List Nat),
      (findClustersAux cal days cur).flatten = cur ++ days.filter (fun d => (cal d).isOff)
  | [], cur => by
    by_cases hcur : cur.isEmpty
    · rw [findClustersAux_nil, if_pos hcur, List.isEmpty_iff.mp hcur]; simp
    · rw [findClustersAux_nil, if_neg hcur]; simp
  | d :: rest, cur => by
    cases hoff : (cal d).isOff
    · by_cases hcur : cur.isEmpty
      · rw [List.isEmpty_iff.mp hcur, findClustersAux_cons_work_nil cal d rest hoff]
        simp [hoff, findClustersAux_flatten cal rest []]
      · rw [findClustersAux_cons_work cal d rest cur hoff hcur]
        simp [hoff, findClustersAux_flatten cal rest []]
    · cases hm : isFirstOfMonth (d + 1)
      · rw [findClustersAux_cons_off_cont cal d rest cur hoff hm,
          findClustersAux_flatten cal rest (cur ++ [d])]
        simp [hoff]
      · rw [findClustersAux_cons_off_close cal d rest cur hoff hm]
        simp [hoff, findClustersAux_flatten cal rest []]

/-- Every produced cluster is non-empty. -/
theorem findClustersAux_ne_nil (cal : Nat → DayType) :
    ∀ (days cur : List Nat), ∀ c ∈ findClustersAux cal days cur, c ≠ []
  | [], cur => by
    intro c hc
    by_cases hcur : cur.isEmpty
    · rw [findClustersAux_nil, if_pos hcur] at hc; cases hc
    · rw [findClustersAux_nil, if_neg hcur] at hc
      rcases List.mem_singleton.mp hc with rfl
      exact fun h => hcur (by simp [h])
  | d :: rest, cur => by
    intro c hc
    cases hoff : (cal d).isOff
    · by_cases hcur : cur.isEmpty
      · rw [List.isEmpty_iff.mp hcur, findClustersAux_cons_work_nil cal d rest hoff] at hc
        exact findClustersAux_ne_nil cal rest [] c hc
      · rw [findClustersAux_cons_work cal d rest cur hoff hcur] at hc
        rcases List.mem_cons.mp hc with rfl | hc
        · exact fun h => hcur (by simp [h])
        · exact findClustersAux_ne_nil cal rest [] c hc
    · cases hm : isFirstOfMonth (d + 1)
      · rw [findClustersAux_cons_off_cont cal d rest cur hoff hm] at hc
        exact findClustersAux_ne_nil cal rest (cur ++ [d]) c hc
      · rw [findClustersAux_cons_off_close cal d rest cur hoff hm] at hc
        rcases List.mem_cons.mp hc with rfl | hc
        · simp
        · exact findClustersAux_ne_nil cal rest [] c hc

/-- Every produced cluster is a block of consecutive dates in ascending
order: the accumulator always holds the run of dates just before the next
date to scan. -/
theorem findClustersAux_shape (cal : Nat → DayType) :
    ∀ (n a : Nat) (cur : List Nat) (s : Nat), s ≤ a → cur = List.range' s (a - s) →
      ∀ c ∈ findClustersAux cal (List.range' a n) cur, ∃ u k, c = List.range' u k
  | 0, a, cur, s, hs, hcur => by
    intro c hc
    rw [show List.range' a 0 = [] from rfl, findClustersAux_nil] at hc
    by_cases h : cur.isEmpty
    · rw [if_pos h] at hc; cases hc
    · rw [if_neg h] at hc
      rcases List.mem_singleton.mp hc with rfl
      exact ⟨s, a - s, hcur⟩
  | n + 1, a, cur, s, hs, hcur => by
    intro c hc
    rw [List.range'_succ] at hc
    have hext : cur ++ [a] = List.range' s (a + 1 - s) := by
      have h1 : a + 1 - s = (a - s) + 1 := by omega
      have h2 : s + 1 * (a - s) = a := by omega
      rw [h1, List.range'_concat, h2, hcur]
    have hnil : ([] : List Nat) = List.range' (a + 1) (a + 1 - (a + 1)) := by simp
    cases hoff : (cal a).isOff
    · by_cases hcur0 : cur.isEmpty
      · rw [List.isEmpty_iff.mp hcur0, findClustersAux_cons_work_nil cal a _ hoff] at hc
        exact findClustersAux_shape cal n (a + 1) [] (a + 1) le_rfl hnil c hc
      · rw [findClustersAux_cons_work cal a _ cur hoff hcur0] at hc
        rcases List.mem_cons.mp hc with rfl | hc
        · exact ⟨s, a - s, hcur⟩
        · exact findClustersAux_shape cal n (a + 1) [] (a + 1) le_rfl hnil c hc
    · cases hm : isFirstOfMonth (a + 1)
      · rw [findClustersAux_cons_off_cont cal a _ cur hoff hm] at hc
        exact findClustersAux_shape cal n (a + 1) (cur ++ [a]) s (by omega) hext c hc
      · rw [findClustersAux_cons_off_close cal a _ cur hoff hm] at hc
        rcases List.mem_cons.mp hc with rfl | hc
        · exact ⟨s, a + 1 - s, hext⟩
        · exact findClustersAux_shape cal n (a + 1) [] (a + 1) le_rfl hnil c hc

/-- Stepping to a date that is not the first of a month stays inside the
same calendar month. -/
theorem monthOfDay_succ_of_not_first (d : Nat) (h : isFirstOfMonth (d + 1) = false) :
    monthOfDay (d + 1) = monthOfDay d := by
  have hmem : (d + 1) ∉ monthStarts := by
    simpa [isFirstOfMonth] using h
  unfold monthOfDay
  congr 1
  apply List.filter_congr
  intro x hx
  have hne : x ≠ d + 1 := fun hxe => hmem (hxe ▸ hx)
  simp only [decide_eq_decide]
  omega

/-- All dates of one produced cluster lie in the same calendar month: the
accumulator is flushed whenever the scan crosses a month boundary. -/
theorem findClustersAux_month (cal : Nat → DayType) :
    ∀ (n a : Nat) (cur : List Nat), (∀ d ∈ cur, monthOfDay d = monthOfDay a) →
      ∀ c ∈ findClustersAux cal (List.range' a n) cur,
        ∀ x ∈ c, ∀ y ∈ c, monthOfDay x = monthOfDay y
  | 0, a, cur, hinv => by
    intro c hc x hx y hy
    rw [show List.range' a 0 = [] from rfl, findClustersAux_nil] at hc
    by_cases h : cur.isEmpty
    · rw [if_pos h] at hc; cases hc
    · rw [if_neg h] at hc
      rcases List.mem_singleton.mp hc with rfl
      rw [hinv x hx, hinv y hy]
  | n + 1, a, cur, hinv => by
    intro c hc
    rw [List.range'_succ] at hc
    have hinv1 : ∀ d ∈ cur ++ [a], monthOfDay d = monthOfDay a := by
      intro x hx
      rcases List.mem_append.mp hx with hx | hx
      · exact hinv x hx
      · rw [List.mem_singleton.mp hx]
    cases hoff : (cal a).isOff
    · by_cases hcur0 : cur.isEmpty
      · rw [List.isEmpty_iff.mp hcur0, findClustersAux_cons_work_nil cal a _ hoff] at hc
        exact findClustersAux_month cal n (a + 1) [] (by simp) c hc
      · rw [findClustersAux_cons_work cal a _ cur hoff hcur0] at hc
        rcases List.mem_cons.mp hc with rfl | hc
        · intro x hx y hy; rw [hinv x hx, hinv y hy]
        · exact findClustersAux_month cal n (a + 1) [] (by simp) c hc
    · cases hm : isFirstOfMonth (a + 1)
      · rw [findClustersAux_cons_off_cont cal a _ cur hoff hm] at hc
        refine findClustersAux_month cal n (a + 1) (cur ++ [a]) ?_ c hc
        intro x hx
        rw [hinv1 x hx, monthOfDay_succ_of_not_first a hm]
      · rw [findClustersAux_cons_off_close cal a _ cur hoff hm] at hc
        rcases List.mem_cons.mp hc with rfl | hc
        · intro x hx y hy; rw [hinv1 x hx, hinv1 y hy]
        · exact findClustersAux_month cal n (a + 1) [] (by simp) c hc

theorem findClusters_flatten (cal : Nat → DayType) :
    (findClusters cal).flatten = yearDays.filter (fun d => (cal d).isOff) := by
  simpa using findClustersAux_flatten cal yearDays []

/-- The concatenation of all clusters is strictly increasing. -/
theorem findClusters_flatten_lt (cal : Nat → DayType) :
    List.Pairwise (· < ·) (findClusters cal).flatten := by
  rw [findClusters_flatten]
  exact (List.pairwise_lt_range' 1 numDaysInYear).filter _

/-- Cluster members are off days of the scanned year. -/
theorem findClusters_mem (cal : Nat → DayType) :
    ∀ c ∈ findClusters cal, ∀ d ∈ c, (cal d).isOff = true ∧ 1 ≤ d ∧ d ≤ numDaysInYear := by
  intro c hc d hd
  have hmem : d ∈ (findClusters cal).flatten := List.mem_flatten.mpr ⟨c, hc, hd⟩
  rw [findClusters_flatten] at hmem
  have h1 := List.of_mem_filter hmem
  have h2 := List.mem_of_mem_filter hmem
  simp only [yearDays, List.mem_range'_1] at h2
  exact ⟨h1, h2.1, by omega⟩

theorem findClusters_ne_nil (cal : Nat → DayType) : ∀ c ∈ findClusters cal, c ≠ [] :=
  findClustersAux_ne_nil cal yearDays []

theorem findClusters_shape (cal : Nat → DayType) :
    ∀ c ∈ findClusters cal, ∃ u, c = List.range' u c.length := by
  intro c hc
  obtain ⟨u, k, hc'⟩ := findClustersAux_shape cal numDaysInYear 1 [] 1 le_rfl (by simp) c hc
  refine ⟨u, ?_⟩
  rw [hc', List.length_range']

theorem findClusters_month (cal : Nat → DayType) :
    ∀ c ∈ findClusters cal, ∀ x ∈ c, ∀ y ∈ c, monthOfDay x = monthOfDay y :=
  findClustersAux_month cal numDaysInYear 1 [] (by simp)
/-! ## Claim C4: Calendar Builder classification -/

theorem holidayDescOn_eq_none_iff (holidays : List HolidayRec) (d : Nat) :
    holidayDescOn holidays d = none ↔ ∀ h ∈ holidays, h.date ≠ d := by
  unfold holidayDescOn
  simp [List.getLast?_eq_none_iff, List.filter_eq_nil_iff]

/-- C4: every date of the target year receives exactly one deterministic
classification, with Holiday taking priority over Weekend over Workday:
Holiday when some holiday record of the city falls on the date, else
Weekend when the weekday is Saturday or Sunday, else Workday.  (The
classification is a Lean function of the inputs, hence total and
deterministic; the last conjunct exhibits the exhaustive case split.) -/
theorem calendar_builder_classification (holidays : List HolidayRec) (d : Nat) :
    ((∃ h ∈ holidays, h.date = d) → ∃ desc, calendarDays holidays d = DayType.holiday desc) ∧
    ((∀ h ∈ holidays, h.date ≠ d) → 5 ≤ weekday d → calendarDays holidays d = DayType.weekend) ∧
    ((∀ h ∈ holidays, h.date ≠ d) → weekday d < 5 → calendarDays holidays d = DayType.workday) ∧
    ((∃ desc, calendarDays holidays d = DayType.holiday desc) ∨
      calendarDays holidays d = DayType.weekend ∨ calendarDays holidays d = DayType.workday) := by
  refine ⟨?_, ?_, ?_, ?_⟩
  · rintro ⟨h, hh, hd⟩
    cases hdesc : holidayDescOn holidays d with
    | some desc => exact ⟨desc, by simp [calendarDays, hdesc]⟩
    | none => exact absurd hd ((holidayDescOn_eq_none_iff holidays d).mp hdesc h hh)
  · intro hall hw
    have hnone : holidayDescOn holidays d = none := (holidayDescOn_eq_none_iff holidays d).mpr hall
    simp [calendarDays, hnone, isWeekend, hw]
  · intro hall hw
    have hnone : holidayDescOn holidays d = none := (holidayDescOn_eq_none_iff holidays d).mpr hall
    simp [calendarDays, hnone, isWeekend, Nat.not_le.mpr hw]
  · cases hdesc : holidayDescOn holidays d with
    | some desc => exact Or.inl ⟨desc, by simp [calendarDays, hdesc]⟩
    | none =>
      by_cases hw : isWeekend d
      · exact Or.inr (Or.inl (by simp [calendarDays, hdesc, hw]))
      · exact Or.inr (Or.inr (by simp [calendarDays, hdesc, hw]))

theorem calendar_builder_classification_witness :
    (∃ desc, calendarDays [⟨1, "New Year"⟩] 1 = DayType.holiday desc) ∧
    calendarDays [⟨1, "New Year"⟩] 4 = DayType.weekend ∧
    calendarDays [⟨1, "New Year"⟩] 2 = DayType.workday :=
  ⟨(calendar_builder_classification [⟨1, "New Year"⟩] 1).1 ⟨⟨1, "New Year"⟩, by simp, rfl⟩,
   (calendar_builder_classification [⟨1, "New Year"⟩] 4).2.1 (by decide) (by decide),
   (calendar_builder_classification [⟨1, "New Year"⟩] 2).2.2.1 (by decide) (by decide)⟩

/-! ## Claim C5: Cluster Finder invariants -/

/-- C5: for every day-classification mapping, the Cluster Finder's output
clusters are non-empty, contain only non-Workday (Holiday or Weekend)
days, consist of strictly consecutive ascending dates, never mix two
calendar months, and are pairwise disjoint in chronological order (every
date of an earlier cluster is strictly below every date of a later one). -/
theorem cluster_finder_invariants (cal : Nat → DayType) :
    (∀ c ∈ findClusters cal, c ≠ []) ∧
    (∀ c ∈ findClusters cal, ∀ d ∈ c, cal d ≠ DayType.workday) ∧
    (∀ c ∈ findClusters cal, ∃ u, c = List.range' u c.length) ∧
    (∀ c ∈ findClusters cal, ∀ x ∈ c, ∀ y ∈ c, monthOfDay x = monthOfDay y) ∧
    List.Pairwise (fun c1 c2 => ∀ x ∈ c1, ∀ y ∈ c2, x < y) (findClusters cal) := by
  refine ⟨findClusters_ne_nil cal, ?_, findClusters_shape cal, findClusters_month cal, ?_⟩
  · intro c hc d hd
    have hoff := (findClusters_mem cal c hc d hd).1
    cases h : cal d <;> simp_all [DayType.isOff]
  · exact (List.pairwise_flatten.mp (findClusters_flatten_lt cal)).2

theorem cluster_finder_invariants_witness :
    [4, 5] ∈ findClusters (calendarDays []) ∧ ([4, 5] : List Nat) ≠ [] ∧
    calendarDays [] 4 ≠ DayType.workday ∧
    (∃ u, ([4, 5] : List Nat) = List.range' u ([4, 5] : List Nat).length) ∧
    monthOfDay 4 = monthOfDay 5 :=
  have hm : [4, 5] ∈ findClusters (calendarDays []) := by decide
  ⟨hm, (cluster_finder_invariants (calendarDays [])).1 _ hm,
   (cluster_finder_invariants (calendarDays [])).2.1 _ hm 4 (by decide),
   (cluster_finder_invariants (calendarDays [])).2.2.1 _ hm,
   (cluster_finder_invariants (calendarDays [])).2.2.2.1 _ hm 4 (by decide) 5 (by decide)⟩

/-! ## Helper facts: Python min and max over non-empty lists -/

theorem foldl_min_le_init : ∀ (t : List Nat) (x : Nat), t.foldl Nat.min x ≤ x
  | [], _ => le_rfl
  | a :: t, x => le_trans (foldl_min_le_init t (Nat.min x a)) (Nat.min_le_left x a)

theorem foldl_min_le_mem : ∀ (t : List Nat) (x : Nat), ∀ d ∈ t, t.foldl Nat.min x ≤ d
  | [], _, d, hd => absurd hd (List.not_mem_nil d)
  | a :: t, x, d, hd => by
    rcases List.mem_cons.mp hd with rfl | hd
    · exact le_trans (foldl_min_le_init t (Nat.min x d)) (Nat.min_le_right x d)
    · exact foldl_min_le_mem t (Nat.min x a) d hd

theorem listMin_le (c : List Nat) : ∀ d ∈ c, listMin c ≤ d := by
  cases c with
  | nil => intro d hd; cases hd
  | cons h t =>
    intro d hd
    rcases List.mem_cons.mp hd with rfl | hd
    · exact foldl_min_le_init t d
    · exact foldl_min_le_mem t h d hd

theorem init_le_foldl_max : ∀ (t : List Nat) (x : Nat), x ≤ t.foldl Nat.max x
  | [], _ => le_rfl
  | a :: t, x => le_trans (Nat.le_max_left x a) (init_le_foldl_max t (Nat.max x a))

theorem mem_le_foldl_max : ∀ (t : List Nat) (x : Nat), ∀ d ∈ t, d ≤ t.foldl Nat.max x
  | [], _, d, hd => absurd hd (List.not_mem_nil d)
  | a :: t, x, d, hd => by
    rcases List.mem_cons.mp hd with rfl | hd
    · exact le_trans (Nat.le_max_right x d) (init_le_foldl_max t (Nat.max x d))
    · exact mem_le_foldl_max t (Nat.max x a) d hd

theorem le_listMax (c : List Nat) : ∀ d ∈ c, d ≤ listMax c := by
  cases c with
  | nil => intro d hd; cases hd
  | cons h t =>
    intro d hd
    rcases List.mem_cons.mp hd with rfl | hd
    · exact init_le_foldl_max t d
    · exact mem_le_foldl_max t h d hd

theorem listMin_le_listMax (c : List Nat) (hc : c ≠ []) : listMin c ≤ listMax c := by
  cases c with
  | nil => exact absurd rfl hc
  | cons h t => exact le_trans (listMin_le _ h (by simp)) (le_listMax _ h (by simp))

/-! ## Properties of the bridge-day scans -/

theorem scanBefore_cases (cal : Nat → DayType) (rem : Int) (cs : Nat) :
    scanBefore cal rem cs = [] ∨ scanBefore cal rem cs = [cs - 1] ∨
      scanBefore cal rem cs = [cs - 1, cs - 2] := by
  unfold scanBefore
  split_ifs <;> simp

theorem scanBefore_mem (cal : Nat → DayType) (rem : Int) (cs : Nat) :
    ∀ d ∈ scanBefore cal rem cs,
      cal d = DayType.workday ∧ 1 ≤ d ∧ d < cs ∧ cs - 2 ≤ d := by
  unfold scanBefore
  split_ifs with h1 h2 <;> intro d hd <;> simp at hd
  · rcases hd with rfl | rfl
    · exact ⟨h1.2.2, by omega, by omega, by omega⟩
    · exact ⟨h2.2.2, by omega, by omega, by omega⟩
  · subst hd
    exact ⟨h1.2.2, by omega, by omega, by omega⟩

theorem scanBefore_length_le (cal : Nat → DayType) (rem : Int) (cs : Nat) :
    (scanBefore cal rem cs).length ≤ 2 := by
  rcases scanBefore_cases cal rem cs with h | h | h <;> simp [h]

theorem scanBefore_nodup (cal : Nat → DayType) (rem : Int) (cs : Nat) :
    (scanBefore cal rem cs).Nodup := by
  unfold scanBefore
  split_ifs with h1 h2 <;> simp
  omega

theorem scanAfter_cases (cal : Nat → DayType) (rem : Int) (ce : Nat) :
    scanAfter cal rem ce = [] ∨ scanAfter cal rem ce = [ce + 1] ∨
      scanAfter cal rem ce = [ce + 1, ce + 2] := by
  unfold scanAfter
  split_ifs <;> simp

theorem scanAfter_mem (cal : Nat → DayType) (rem : Int) (ce : Nat) :
    ∀ d ∈ scanAfter cal rem ce,
      cal d = DayType.workday ∧ ce < d ∧ d ≤ ce + 2 ∧ d ≤ numDaysInYear := by
  unfold scanAfter
  split_ifs with h1 h2 <;> intro d hd <;> simp at hd
  · rcases hd with rfl | rfl
    · exact ⟨h1.2.2, by omega, by omega, h1.2.1⟩
    · exact ⟨h2.2.2, by omega, by omega, h2.2.1⟩
  · subst hd
    exact ⟨h1.2.2, by omega, by omega, h1.2.1⟩

theorem scanAfter_length_le (cal : Nat → DayType) (rem : Int) (ce : Nat) :
    (scanAfter cal rem ce).length ≤ 2 := by
  rcases scanAfter_cases cal rem ce with h | h | h <;> simp [h]

theorem scanAfter_nodup (cal : Nat → DayType) (rem : Int) (ce : Nat) :
    (scanAfter cal rem ce).Nodup := by
  unfold scanAfter
  split_ifs with h1 h2 <;> simp

/-! ## Properties of the optimizer loop -/

theorem optimizeLoop_cons (cal : Nat → DayType) (cluster : List Nat)
    (rest : List (List Nat)) (rem : Int) :
    optimizeLoop cal (cluster :: rest) rem =
      if rem ≤ 0 then []
      else if scanBefore cal rem (listMin cluster) = [] ∧
          scanAfter cal rem (listMax cluster) = [] then
        optimizeLoop cal rest rem
      else if clusterValue cal rem cluster < mkRat 3 2 then
        optimizeLoop cal rest rem
      else if chosenLeaveDates cal rem cluster = [] then
        optimizeLoop cal rest rem
      else
        buildSuggestion cal cluster (chosenLeaveDates cal rem cluster)
            (clusterValue cal rem cluster)
          :: optimizeLoop cal rest (rem - ((chosenLeaveDates cal rem cluster).length : Int)) :=
  rfl

/-- Every emitted suggestion comes from one of the processed clusters, with
a positive remaining budget at its processing time, a non-empty bridge-day
choice and an accepted value. -/
theorem optimizeLoop_mem_ex (cal : Nat → DayType) :
    ∀ (cls : List (List Nat)) (rem : Int), ∀ s ∈ optimizeLoop cal cls rem,
      ∃ c ∈ cls, ∃ r : Int, 0 < r ∧
        ¬ clusterValue cal r c < mkRat 3 2 ∧
        chosenLeaveDates cal r c ≠ [] ∧
        s = buildSuggestion cal c (chosenLeaveDates cal r c) (clusterValue cal r c)
  | [], rem => by intro s hs; cases hs
  | cluster :: rest, rem => by
    intro s hs
    rw [optimizeLoop_cons] at hs
    by_cases h0 : rem ≤ 0
    · rw [if_pos h0] at hs; cases hs
    · rw [if_neg h0] at hs
      by_cases h1 : scanBefore cal rem (listMin cluster) = [] ∧
          scanAfter cal rem (listMax cluster) = []
      · rw [if_pos h1] at hs
        obtain ⟨c, hc, r, hr⟩ := optimizeLoop_mem_ex cal rest rem s hs
        exact ⟨c, List.mem_cons_of_mem _ hc, r, hr⟩
      · rw [if_neg h1] at hs
        by_cases h2 : clusterValue cal rem cluster < mkRat 3 2
        · rw [if_pos h2] at hs
          obtain ⟨c, hc, r, hr⟩ := optimizeLoop_mem_ex cal rest rem s hs
          exact ⟨c, List.mem_cons_of_mem _ hc, r, hr⟩
        · rw [if_neg h2] at hs
          by_cases h3 : chosenLeaveDates cal rem cluster = []
          · rw [if_pos h3] at hs
            obtain ⟨c, hc, r, hr⟩ := optimizeLoop_mem_ex cal rest rem s hs
            exact ⟨c, List.mem_cons_of_mem _ hc, r, hr⟩
          · rw [if_neg h3] at hs
            rcases List.mem_cons.mp hs with rfl | hs
            · exact ⟨cluster, List.mem_cons_self _ _, rem, by omega, h2, h3, rfl⟩
            · obtain ⟨c, hc, r, hr⟩ :=
                optimizeLoop_mem_ex cal rest (rem - ((chosenLeaveDates cal rem cluster).length : Int)) s hs
              exact ⟨c, List.mem_cons_of_mem _ hc, r, hr⟩
theorem chosenLeaveDates_subset (cal : Nat → DayType) (r : Int) (c : List Nat) :
    ∀ d ∈ chosenLeaveDates cal r c,
      d ∈ scanBefore cal r (listMin c) ∨ d ∈ scanAfter cal r (listMax c) := by
  intro d hd
  unfold chosenLeaveDates at hd
  have hmem := (List.take_sublist _ _).subset hd
  rw [List.mem_insertionSort] at hmem
  exact List.mem_append.mp hmem

theorem chosenLeaveDates_nodup (cal : Nat → DayType) (r : Int) (c : List Nat) (hc : c ≠ []) :
    (chosenLeaveDates cal r c).Nodup := by
  have hba : (scanBefore cal r (listMin c) ++ scanAfter cal r (listMax c)).Nodup := by
    rw [List.nodup_append]
    refine ⟨scanBefore_nodup cal r _, scanAfter_nodup cal r _, ?_⟩
    intro d hdb hda
    have h1 := (scanBefore_mem cal r _ d hdb).2.2.1
    have h2 := (scanAfter_mem cal r _ d hda).2.1
    have h3 := listMin_le_listMax c hc
    omega
  have hs : ((scanBefore cal r (listMin c)
      ++ scanAfter cal r (listMax c)).insertionSort (· ≤ ·)).Nodup :=
    ((List.perm_insertionSort _ _).nodup_iff).mpr hba
  exact hs.sublist (List.take_sublist _ _)

theorem chosenLeaveDates_length (cal : Nat → DayType) (r : Int) (c : List Nat) :
    (chosenLeaveDates cal r c).length = (candidateCount cal r c).toNat := by
  unfold chosenLeaveDates
  rw [List.length_take, List.length_insertionSort, List.length_append]
  have h1 := min_le_right r (((scanBefore cal r (listMin c)).length : Int)
    + ((scanAfter cal r (listMax c)).length : Int))
  have h2 := min_le_left r (((scanBefore cal r (listMin c)).length : Int)
    + ((scanAfter cal r (listMax c)).length : Int))
  have h3 : candidateCount cal r c = min r (((scanBefore cal r (listMin c)).length : Int)
    + ((scanAfter cal r (listMax c)).length : Int)) := rfl
  omega

theorem chosenLeaveDates_length_le (cal : Nat → DayType) (r : Int) (c : List Nat) :
    (chosenLeaveDates cal r c).length ≤ 4 := by
  unfold chosenLeaveDates
  rw [List.length_take, List.length_insertionSort, List.length_append]
  have h1 := scanBefore_length_le cal r (listMin c)
  have h2 := scanAfter_length_le cal r (listMax c)
  omega

theorem cluster_chosen_disjoint (cal : Nat → DayType) (r : Int) (c : List Nat)
    (hoff : ∀ d ∈ c, (cal d).isOff = true) : List.Disjoint c (chosenLeaveDates cal r c) := by
  intro d hdc hdl
  have h1 := hoff d hdc
  rcases chosenLeaveDates_subset cal r c d hdl with h | h
  · rw [(scanBefore_mem cal r _ d h).1] at h1
    simp [DayType.isOff] at h1
  · rw [(scanAfter_mem cal r _ d h).1] at h1
    simp [DayType.isOff] at h1

theorem buildSuggestion_leaves_used (cal : Nat → DayType) (c ld : List Nat) (v : ℚ) :
    (buildSuggestion cal c ld v).leaves_used = ld.length := rfl

theorem buildSuggestion_value (cal : Nat → DayType) (c ld : List Nat) (v : ℚ) :
    (buildSuggestion cal c ld v).value = v := rfl

theorem buildSuggestion_leave_dates (cal : Nat → DayType) (c ld : List Nat) (v : ℚ) :
    (buildSuggestion cal c ld v).leave_dates = ld.insertionSort (· ≤ ·) := rfl

theorem buildSuggestion_total (cal : Nat → DayType) (c ld : List Nat) (v : ℚ) :
    (buildSuggestion cal c ld v).total_days_off = c.length + ld.length := by
  show ((c ++ ld).insertionSort (· ≤ ·)).length = c.length + ld.length
  rw [List.length_insertionSort, List.length_append]

theorem mkRat_three_two : mkRat 3 2 = (3 : ℚ) / 2 := by
  rw [Rat.mkRat_eq_div]; norm_num

/-! ## Claim C1: suggestion accounting -/

/-- C1: every suggestion `s` emitted by the bridge optimizer satisfies
`leaves_used = |leave_dates|`, `total_days_off` equals the cardinality of
the union of the originating cluster's dates with the leave dates, and
`value = total_days_off / leaves_used` as exact rational equalities. -/
theorem suggestion_accounting (holidays : List HolidayRec) (budget : Int) :
    ∀ s ∈ findOptimalLeavePeriods holidays budget,
      s.leaves_used = s.leave_dates.length ∧
      (∃ c ∈ findClusters (calendarDays holidays),
        s.total_days_off = (c.toFinset ∪ s.leave_dates.toFinset).card) ∧
      s.value = (s.total_days_off : ℚ) / (s.leaves_used : ℚ) := by
  intro s hs
  unfold findOptimalLeavePeriods at hs
  rw [List.mem_insertionSort] at hs
  obtain ⟨c, hcmem, r, hr, hval, hld, rfl⟩ :=
    optimizeLoop_mem_ex (calendarDays holidays) _ _ s hs
  rw [List.mem_insertionSort] at hcmem
  have hcne : c ≠ [] := findClusters_ne_nil _ c hcmem
  have hcoff : ∀ d ∈ c, ((calendarDays holidays) d).isOff = true :=
    fun d hd => (findClusters_mem _ c hcmem d hd).1
  obtain ⟨u, hcr⟩ := findClusters_shape _ c hcmem
  have hcnd : c.Nodup := by rw [hcr]; exact List.nodup_range' u c.length
  have hldnd : (chosenLeaveDates (calendarDays holidays) r c).Nodup :=
    chosenLeaveDates_nodup _ r c hcne
  have hdisj : List.Disjoint c (chosenLeaveDates (calendarDays holidays) r c) :=
    cluster_chosen_disjoint _ r c hcoff
  have happ : (c ++ chosenLeaveDates (calendarDays holidays) r c).Nodup :=
    List.nodup_append.mpr ⟨hcnd, hldnd, hdisj⟩
  have hlenpos : 0 < (chosenLeaveDates (calendarDays holidays) r c).length :=
    List.length_pos.mpr hld
  have hlen := chosenLeaveDates_length (calendarDays holidays) r c
  have hccpos : 0 < candidateCount (calendarDays holidays) r c := by omega
  have hccnn : ((candidateCount (calendarDays holidays) r c).toNat : Int)
      = candidateCount (calendarDays holidays) r c := Int.toNat_of_nonneg (le_of_lt hccpos)
  refine ⟨?_, ⟨c, hcmem, ?_⟩, ?_⟩
  · rw [buildSuggestion_leaves_used, buildSuggestion_leave_dates,
      List.length_insertionSort]
  · rw [buildSuggestion_total, buildSuggestion_leave_dates]
    rw [List.toFinset_eq_of_perm _ _
      (List.perm_insertionSort (· ≤ ·) (chosenLeaveDates (calendarDays holidays) r c))]
    rw [← List.toFinset_append, List.toFinset_card_of_nodup happ, List.length_append]
  · rw [buildSuggestion_value, buildSuggestion_total, buildSuggestion_leaves_used]
    show clusterValue (calendarDays holidays) r c = _
    obtain ⟨n, hn⟩ := Int.eq_ofNat_of_zero_le (le_of_lt hccpos)
    unfold clusterValue
    rw [if_pos hccpos, Rat.mkRat_eq_div, hlen, hn]
    simp only [Int.toNat_natCast]
    push_cast
    ring

/-- C1 witness: the concrete run with no holidays and budget 4 emits the
suggestion bridging the first weekend of January. -/
theorem suggestion_accounting_witness :
    ∃ s, s ∈ findOptimalLeavePeriods [] 4 ∧
      s.leaves_used = s.leave_dates.length ∧
      (∃ c ∈ findClusters (calendarDays []),
        s.total_days_off = (c.toFinset ∪ s.leave_dates.toFinset).card) ∧
      s.value = (s.total_days_off : ℚ) / (s.leaves_used : ℚ) := by
  have hmem : (⟨2, 7, 4, 6, mkRat 3 2, [2, 3, 6, 7], []⟩ : Suggestion)
      ∈ findOptimalLeavePeriods [] 4 := by decide
  exact ⟨_, hmem, suggestion_accounting [] 4 _ hmem⟩

/-! ## Claim C3: acceptance threshold -/

/-- C3: every emitted suggestion has value at least 1.5, and a cluster
whose computed value falls below 1.5 yields no suggestion and leaves the
remaining budget unchanged (the loop proceeds with the same budget). -/
theorem acceptance_threshold :
    (∀ (holidays : List HolidayRec) (budget : Int),
      ∀ s ∈ findOptimalLeavePeriods holidays budget, (3 : ℚ) / 2 ≤ s.value) ∧
    (∀ (cal : Nat → DayType) (c : List Nat) (rest : List (List Nat)) (r : Int), 0 < r →
      clusterValue cal r c < (3 : ℚ) / 2 →
      optimizeLoop cal (c :: rest) r = optimizeLoop cal rest r) := by
  constructor
  · intro holidays budget s hs
    unfold findOptimalLeavePeriods at hs
    rw [List.mem_insertionSort] at hs
    obtain ⟨c, hcmem, r, -, hval, hld, rfl⟩ :=
      optimizeLoop_mem_ex (calendarDays holidays) _ _ s hs
    rw [buildSuggestion_value]
    rw [mkRat_three_two] at hval
    exact le_of_not_lt hval
  · intro cal c rest r hr hvlt
    rw [optimizeLoop_cons, if_neg (by omega)]
    by_cases h1 : scanBefore cal r (listMin c) = [] ∧ scanAfter cal r (listMax c) = []
    · rw [if_pos h1]
    · rw [if_neg h1, if_pos (by rwa [mkRat_three_two])]

theorem acceptance_threshold_witness :
    ((3 : ℚ) / 2 ≤ (⟨2, 7, 4, 6, mkRat 3 2, [2, 3, 6, 7], []⟩ : Suggestion).value) ∧
    optimizeLoop (calendarDays []) [[8]] 4 = optimizeLoop (calendarDays []) [] 4 :=
  ⟨acceptance_threshold.1 [] 4 _ (by decide),
   acceptance_threshold.2 (calendarDays []) [8] [] 4 (by decide)
     (by rw [show clusterValue (calendarDays []) 4 [8] = mkRat 5 4 from by decide,
       Rat.mkRat_eq_div]; norm_num)⟩

/-! ## Claim C10: bounds on leaves used per suggestion -/

/-- C10: every emitted suggestion uses between 1 and 4 leave days: an empty
leave-date list is never emitted and each side of the cluster contributes
at most 2 bridge days. -/
theorem leaves_used_bounds (holidays : List HolidayRec) (budget : Int) :
    ∀ s ∈ findOptimalLeavePeriods holidays budget,
      1 ≤ s.leaves_used ∧ s.leaves_used ≤ 4 := by
  intro s hs
  unfold findOptimalLeavePeriods at hs
  rw [List.mem_insertionSort] at hs
  obtain ⟨c, hcmem, r, hr, hval, hld, rfl⟩ :=
    optimizeLoop_mem_ex (calendarDays holidays) _ _ s hs
  rw [buildSuggestion_leaves_used]
  exact ⟨List.length_pos.mpr hld, chosenLeaveDates_length_le _ r c⟩

theorem leaves_used_bounds_witness :
    1 ≤ (⟨2, 7, 4, 6, mkRat 3 2, [2, 3, 6, 7], []⟩ : Suggestion).leaves_used ∧
    (⟨2, 7, 4, 6, mkRat 3 2, [2, 3, 6, 7], []⟩ : Suggestion).leaves_used ≤ 4 :=
  leaves_used_bounds [] 4 _ (by decide)
/-! ## Claim C2: budget invariant -/

theorem optimizeLoop_nonpos (cal : Nat → DayType) (cls : List (List Nat)) (rem : Int)
    (h : rem ≤ 0) : optimizeLoop cal cls rem = [] := by
  cases cls with
  | nil => rfl
  | cons c rest => rw [optimizeLoop_cons, if_pos h]

/-- The leave days spent by the loop never exceed the remaining budget. -/
theorem optimizeLoop_sum_le (cal : Nat → DayType) :
    ∀ (cls : List (List Nat)) (rem : Int), 0 ≤ rem →
      ((optimizeLoop cal cls rem).map (fun s => (s.leaves_used : Int))).sum ≤ rem
  | [], rem, h => by simpa [optimizeLoop] using h
  | cluster :: rest, rem, h => by
    rw [optimizeLoop_cons]
    by_cases h0 : rem ≤ 0
    · rw [if_pos h0]; simpa using h
    · rw [if_neg h0]
      by_cases h1 : scanBefore cal rem (listMin cluster) = [] ∧
          scanAfter cal rem (listMax cluster) = []
      · rw [if_pos h1]; exact optimizeLoop_sum_le cal rest rem h
      · rw [if_neg h1]
        by_cases h2 : clusterValue cal rem cluster < mkRat 3 2
        · rw [if_pos h2]; exact optimizeLoop_sum_le cal rest rem h
        · rw [if_neg h2]
          by_cases h3 : chosenLeaveDates cal rem cluster = []
          · rw [if_pos h3]; exact optimizeLoop_sum_le cal rest rem h
          · rw [if_neg h3]
            have hlen := chosenLeaveDates_length cal rem cluster
            have hmin := min_le_left rem (((scanBefore cal rem (listMin cluster)).length : Int)
              + ((scanAfter cal rem (listMax cluster)).length : Int))
            have hcc : candidateCount cal rem cluster
                = min rem (((scanBefore cal rem (listMin cluster)).length : Int)
                  + ((scanAfter cal rem (listMax cluster)).length : Int)) := rfl
            have hle : ((chosenLeaveDates cal rem cluster).length : Int) ≤ rem := by omega
            have ih := optimizeLoop_sum_le cal rest
              (rem - ((chosenLeaveDates cal rem cluster).length : Int)) (by omega)
            simp only [List.map_cons, List.sum_cons, buildSuggestion_leaves_used]
            omega

/-- C2: with a non-negative initial budget, the total leave days spent over
all suggestions never exceed the budget, the loop emits nothing once the
remaining budget is non-positive, and a zero budget yields no suggestion at
all. -/
theorem budget_invariant (holidays : List HolidayRec) (budget : Int) (hb : 0 ≤ budget) :
    ((findOptimalLeavePeriods holidays budget).map (fun s => (s.leaves_used : Int))).sum
        ≤ budget ∧
    (∀ (cls : List (List Nat)) (rem : Int), rem ≤ 0 →
      optimizeLoop (calendarDays holidays) cls rem = []) ∧
    (budget = 0 → findOptimalLeavePeriods holidays budget = []) := by
  refine ⟨?_, fun cls rem h => optimizeLoop_nonpos _ cls rem h, ?_⟩
  · unfold findOptimalLeavePeriods
    have hperm := List.perm_insertionSort (fun a b : Suggestion => b.value ≤ a.value)
      (optimizeLoop (calendarDays holidays)
        ((findClusters (calendarDays holidays)).insertionSort (fun a b => b.length ≤ a.length))
        budget)
    rw [(hperm.map (fun s => (s.leaves_used : Int))).sum_eq]
    exact optimizeLoop_sum_le (calendarDays holidays) _ budget hb
  · intro h0
    show List.insertionSort (fun a b : Suggestion => b.value ≤ a.value)
      (optimizeLoop (calendarDays holidays)
        ((findClusters (calendarDays holidays)).insertionSort
          (fun a b => b.length ≤ a.length)) budget) = []
    rw [optimizeLoop_nonpos _ _ _ (by omega)]
    rfl

theorem budget_invariant_witness :
    ((findOptimalLeavePeriods [] 0).map (fun s => (s.leaves_used : Int))).sum ≤ 0 ∧
    findOptimalLeavePeriods [] 0 = [] :=
  ⟨(budget_invariant [] 0 le_rfl).1, (budget_invariant [] 0 le_rfl).2.2 rfl⟩

/-! ## Claim C9: ranking by value, stable -/

/-- C9: the suggestion sequence handed to callers is sorted by value in
descending order, and equal-value suggestions keep the relative order they
had when produced by the budget loop (stability of the final sort). -/
theorem ranking_sorted_stable (holidays : List HolidayRec) (budget : Int) :
    List.Sorted (fun s1 s2 : Suggestion => s2.value ≤ s1.value)
      (findOptimalLeavePeriods holidays budget) ∧
    (∀ s1 s2 : Suggestion, s1.value = s2.value →
      [s1, s2].Sublist (optimizeLoop (calendarDays holidays)
        ((findClusters (calendarDays holidays)).insertionSort
          (fun a b => b.length ≤ a.length)) budget) →
      [s1, s2].Sublist (findOptimalLeavePeriods holidays budget)) := by
  constructor
  · haveI : IsTotal Suggestion (fun s1 s2 => s2.value ≤ s1.value) :=
      ⟨fun a b => le_total b.value a.value⟩
    haveI : IsTrans Suggestion (fun s1 s2 => s2.value ≤ s1.value) :=
      ⟨fun _ _ _ h1 h2 => le_trans h2 h1⟩
    exact List.sorted_insertionSort _ _
  · intro s1 s2 hv hsub
    exact List.pair_sublist_insertionSort (le_of_eq hv.symm) hsub

theorem ranking_sorted_stable_witness :
    [(⟨2, 7, 4, 6, mkRat 3 2, [2, 3, 6, 7], []⟩ : Suggestion),
     (⟨9, 14, 4, 6, mkRat 3 2, [9, 10, 13, 14], []⟩ : Suggestion)].Sublist
      (findOptimalLeavePeriods [] 8) := by
  have h : optimizeLoop (calendarDays [])
      ((findClusters (calendarDays [])).insertionSort (fun a b => b.length ≤ a.length)) 8
      = [(⟨2, 7, 4, 6, mkRat 3 2, [2, 3, 6, 7], []⟩ : Suggestion),
         (⟨9, 14, 4, 6, mkRat 3 2, [9, 10, 13, 14], []⟩ : Suggestion)] := by decide
  exact (ranking_sorted_stable [] 8).2 _ _ rfl (h ▸ List.Sublist.refl _)
/-! ## Claim C8: bridge-day candidates and leave-date selection -/

/-- C8: while the remaining budget is positive, the bridge-day candidates
are at most 2 consecutive workdays immediately before the cluster start
(never before January 1) and at most 2 consecutive workdays immediately
after the cluster end (never after December 31); `candidate_count` is
`min(remaining, |before| + |after|)`; the chosen leave dates are the first
`candidate_count` dates of the ascending sort of the merged scans; and an
accepted cluster emits exactly the suggestion built from them, deducting
their number from the budget. -/
theorem bridge_day_selection (cal : Nat → DayType) (r : Int) (c : List Nat)
    (rest : List (List Nat)) (hr : 0 < r) :
    ((scanBefore cal r (listMin c) = [] ∨ scanBefore cal r (listMin c) = [listMin c - 1] ∨
        scanBefore cal r (listMin c) = [listMin c - 1, listMin c - 2]) ∧
      (∀ d ∈ scanBefore cal r (listMin c),
        cal d = DayType.workday ∧ 1 ≤ d ∧ d < listMin c ∧ listMin c - 2 ≤ d)) ∧
    ((scanAfter cal r (listMax c) = [] ∨ scanAfter cal r (listMax c) = [listMax c + 1] ∨
        scanAfter cal r (listMax c) = [listMax c + 1, listMax c + 2]) ∧
      (∀ d ∈ scanAfter cal r (listMax c),
        cal d = DayType.workday ∧ listMax c < d ∧ d ≤ listMax c + 2 ∧ d ≤ numDaysInYear)) ∧
    (candidateCount cal r c
        = min r (((scanBefore cal r (listMin c)).length : Int)
            + ((scanAfter cal r (listMax c)).length : Int)) ∧
      chosenLeaveDates cal r c
        = ((scanBefore cal r (listMin c)
            ++ scanAfter cal r (listMax c)).insertionSort (· ≤ ·)).take
              (candidateCount cal r c).toNat) ∧
    (¬ (scanBefore cal r (listMin c) = [] ∧ scanAfter cal r (listMax c) = []) →
      ¬ clusterValue cal r c < mkRat 3 2 → chosenLeaveDates cal r c ≠ [] →
      optimizeLoop cal (c :: rest) r
        = buildSuggestion cal c (chosenLeaveDates cal r c) (clusterValue cal r c)
            :: optimizeLoop cal rest (r - ((chosenLeaveDates cal r c).length : Int))) := by
  refine ⟨⟨scanBefore_cases cal r _, scanBefore_mem cal r _⟩,
    ⟨scanAfter_cases cal r _, scanAfter_mem cal r _⟩, ⟨rfl, rfl⟩, ?_⟩
  intro h1 h2 h3
  rw [optimizeLoop_cons, if_neg (by omega), if_neg h1, if_neg h2, if_neg h3]

theorem bridge_day_selection_witness :
    (∀ d ∈ scanBefore (calendarDays []) 4 (listMin [4, 5]),
      calendarDays [] d = DayType.workday ∧ 1 ≤ d ∧ d < listMin [4, 5]
        ∧ listMin [4, 5] - 2 ≤ d) ∧
    optimizeLoop (calendarDays []) [[4, 5]] 4
      = buildSuggestion (calendarDays []) [4, 5] (chosenLeaveDates (calendarDays []) 4 [4, 5])
          (clusterValue (calendarDays []) 4 [4, 5])
        :: optimizeLoop (calendarDays []) []
            (4 - ((chosenLeaveDates (calendarDays []) 4 [4, 5]).length : Int)) :=
  ⟨(bridge_day_selection (calendarDays []) 4 [4, 5] [] (by decide)).1.2,
   (bridge_day_selection (calendarDays []) 4 [4, 5] [] (by decide)).2.2.2
     (by decide) (by decide) (by decide)⟩

/-! ## Claim C6: leave-balance resolution -/

/-- C6 counterexample: a leave-balance cell that Python's `int` parses as
the negative integer -3 is passed through unchanged, so the budget handed
to the optimizer is not always non-negative as the claim states. -/
theorem leave_balance_not_nonneg :
    resolveLeaveBalance (some (-3)) = -3 ∧ ¬ (0 ≤ resolveLeaveBalance (some (-3))) := by
  decide

/-- C6 (amended): the budget passed to the optimizer is the parsed integer
whenever the field parses (the code performs no clamping, so a negative
parsed value is passed through), and the default 10 when the field is
unparseable (the run continues with a logged warning). -/
theorem leave_balance_resolution (field : Option Int) :
    (∀ n : Int, field = some n → resolveLeaveBalance field = n) ∧
    (field = none → resolveLeaveBalance field = 10) := by
  constructor
  · rintro n rfl; rfl
  · rintro rfl; rfl

theorem leave_balance_resolution_witness :
    resolveLeaveBalance (some 5) = 5 ∧ resolveLeaveBalance none = 10 :=
  ⟨(leave_balance_resolution (some 5)).1 5 rfl, (leave_balance_resolution none).2 rfl⟩

/-! ## Claim C7: city resolution and per-employee isolation -/

/-- C7: every employee yields exactly one result; an employee whose city is
not an exact member of the known set is resolved by the case-insensitive
substring match in either direction (first matching known city); when no
city matches, the result carries the explicit city-not-found error status
and an empty suggestion list (the optimizer output does not appear), and
the results of the other employees are untouched (each index is mapped
independently). -/
theorem city_resolution (cities : List String) (getHolidays : String → List HolidayRec)
    (emps : List Employee) :
    (generateLeavePlans cities getHolidays emps).length = emps.length ∧
    (∀ i (h : i < emps.length),
      (generateLeavePlans cities getHolidays emps).get
          ⟨i, by simpa [generateLeavePlans] using h⟩
        = planForEmployee cities getHolidays (emps.get ⟨i, h⟩)) ∧
    (∀ e : Employee,
      (e.city ∉ cities → resolveCity e.city cities = cityFuzzy e.city cities) ∧
      (∀ m, cityFuzzy e.city cities = some m →
        (subIn (lowerChars e.city) (lowerChars m)
          || subIn (lowerChars m) (lowerChars e.city)) = true) ∧
      (resolveCity e.city cities = none →
        (planForEmployee cities getHolidays e).status
            = some ("Error: City " ++ e.city ++ " not found in holiday list") ∧
          (planForEmployee cities getHolidays e).suggestions = []) ∧
      (∀ m, resolveCity e.city cities = some m →
        (planForEmployee cities getHolidays e).status = none ∧
          (planForEmployee cities getHolidays e).suggestions
            = findOptimalLeavePeriods (getHolidays m) (resolveLeaveBalance e.leavesField))) := by
  refine ⟨by simp [generateLeavePlans], ?_, ?_⟩
  · intro i h
    simp [generateLeavePlans]
  · intro e
    refine ⟨?_, ?_, ?_, ?_⟩
    · intro hnot
      unfold resolveCity
      rw [if_neg hnot]
    · intro m hm
      have h := List.find?_some hm
      simpa using h
    · intro hnone
      unfold planForEmployee
      rw [hnone]
      exact ⟨rfl, rfl⟩
    · intro m hm
      unfold planForEmployee
      rw [hm]
      exact ⟨rfl, rfl⟩

theorem city_resolution_witness :
    (generateLeavePlans ["Bangalore", "Mumbai"] (fun _ => [])
        [⟨"A", "1", "Atlantis", some 5⟩]).length = 1 ∧
    (planForEmployee ["Bangalore", "Mumbai"] (fun _ => [])
        ⟨"A", "1", "Atlantis", some 5⟩).status
      = some ("Error: City " ++ "Atlantis" ++ " not found in holiday list") ∧
    (planForEmployee ["Bangalore", "Mumbai"] (fun _ => [])
        ⟨"A", "1", "Atlantis", some 5⟩).suggestions = [] :=
  ⟨(city_resolution ["Bangalore", "Mumbai"] (fun _ => []) [⟨"A", "1", "Atlantis", some 5⟩]).1,
   ((city_resolution ["Bangalore", "Mumbai"] (fun _ => [])
        [⟨"A", "1", "Atlantis", some 5⟩]).2.2 ⟨"A", "1", "Atlantis", some 5⟩).2.2.1
      (by decide)⟩
end VibePlanner
